import Mathlib

/-!
# Verification of the simd-calc front end

Shallow embedding of the lexing → parsing → IR-lowering pipeline of the
simd-calc repository:

* `TokenKind`, `Token`, `Lexer.tokenize`  — from `src/main.py` (class `Lexer`,
  enum `TokenKind`); character classes (`isalpha`, `isdigit`, `isalnum`) are
  modelled with Lean's ASCII `Char` predicates.
* AST node types                          — from `src/compiler/ast.py`.
* `Parser` (statement / declaration / expression / function-call parsing)
                                          — from `src/compiler/parser.py`.
  Python runtime faults that the parser can reach (attribute access on `None`,
  list index out of range, reading an unbound local) are made explicit as
  `PyErr` values; the mutually recursive parsing procedures take a fuel
  argument, as the Python recursion is bounded only by token consumption.
* IR model and `IRBuilder.build`          — from `src/compiler/ir/builder.py`,
  with the builder's mutable state (`instructions`, `current_variable_id`)
  passed explicitly; `raise NotImplementedError` becomes an `Except` error.
-/

/-! ## Tokens and the lexer (`src/main.py`) -/

inductive OperatorAssociativityKind where
  | right | left | unknown
deriving DecidableEq, Repr

inductive TokenKind where
  | plus | minus | multiply | divide | exponent
  | plusEqual | minusEqual | multiplyEqual | divideEqual
  | arrayOpen | arrayClose | parenOpen | parenClose | braceOpen | braceClose
  | assignment | semicolon | comma | range | forKeyword
  | identifier | number
deriving DecidableEq, Repr

/-- The `Enum` value of each `TokenKind` member in `src/main.py`. -/
def TokenKind.value : TokenKind → Nat
  | .plus => 0 | .minus => 1 | .multiply => 2 | .divide => 3 | .exponent => 4
  | .plusEqual => 5 | .minusEqual => 6 | .multiplyEqual => 7 | .divideEqual => 8
  | .arrayOpen => 9 | .arrayClose => 10 | .parenOpen => 11 | .parenClose => 12
  | .braceOpen => 13 | .braceClose => 14
  | .assignment => 15 | .semicolon => 16 | .comma => 17 | .range => 18
  | .forKeyword => 19
  | .identifier => 20 | .number => 21

/-- `TokenKind.is_operator`: `self.value <= TokenKind.EXPONENT.value`. -/
def TokenKind.isOperator (k : TokenKind) : Bool :=
  k.value ≤ TokenKind.exponent.value

/-- `TokenKind.operator_precedence`. -/
def TokenKind.operatorPrecedence : TokenKind → Nat
  | .plus | .minus => 1
  | .multiply | .divide => 2
  | .exponent => 3
  | _ => 0

/-- `TokenKind.operator_associativity`. -/
def TokenKind.operatorAssociativity : TokenKind → OperatorAssociativityKind
  | .plus | .minus | .multiply | .divide => .left
  | .exponent => .right
  | _ => .unknown

structure Token where
  kind : TokenKind
  literal : String
  line : Nat
  column : Nat
deriving DecidableEq, Repr

/-- The `SyntaxError` raised by `Lexer.tokenize`:
`f"Invalid character '{current_char}' at {self.line}:{self.column}."`. -/
structure LexError where
  char : Char
  line : Nat
  column : Nat
deriving DecidableEq, Repr

/-- The character class consumed inside an identifier:
`next_char.isalnum() or next_char == '_'`. -/
def isIdentChar (c : Char) : Bool := c.isAlphanum || c = '_'

/-- The character class consumed inside a number:
`next_char.isdigit() or next_char == '.'`. -/
def isNumberChar (c : Char) : Bool := c.isDigit || c = '.'

/-- `consume_identifier` classification: the literal `"for"` becomes the
keyword token, everything else is an identifier. -/
def identKind (lit : String) : TokenKind :=
  if lit = "for" then .forKeyword else .identifier

/--
The scanning loop of `Lexer.tokenize` (`src/main.py`), one recursive step per
iteration of the Python `while` loop.  State: remaining characters, current
line, current column (the Python fields `line` and `column`; the column is the
value *before* the pending `advance()` of the head character, so the head
character sits at column `col + 1`), and the tokens accumulated so far.

Every iteration consumes at least the head character, so any fuel larger than
the number of remaining characters is never exhausted; `none` (out of fuel)
is an artefact of the embedding and unreachable from `tokenize`.
-/
def lexLoop : Nat → List Char → Nat → Nat → List Token → Option (Except LexError (List Token))
  | 0, _, _, _, _ => none
  | _ + 1, [], _, _, acc => some (.ok acc)
  | fuel + 1, c :: cs, line, col, acc =>
    -- `advance()` has consumed `c`: the column is now `col + 1`.
    if c = ' ' ∨ c = '\t' ∨ c = '\r' then
      lexLoop fuel cs line (col + 1) acc
    else if c = '\n' then
      lexLoop fuel cs (line + 1) 0 acc
    else if c = '#' then
      -- comment: advance while the next character is not a newline
      lexLoop fuel (cs.dropWhile (· ≠ '\n')) line
        (col + 1 + (cs.takeWhile (· ≠ '\n')).length) acc
    else if c = '+' ∧ cs.head? = some '=' then
      lexLoop fuel cs.tail line (col + 2) (acc ++ [⟨.plusEqual, "+=", line, col + 1⟩])
    else if c = '+' then
      lexLoop fuel cs line (col + 1) (acc ++ [⟨.plus, "+", line, col + 1⟩])
    else if c = '-' ∧ cs.head? = some '=' then
      lexLoop fuel cs.tail line (col + 2) (acc ++ [⟨.minusEqual, "-=", line, col + 1⟩])
    else if c = '-' then
      lexLoop fuel cs line (col + 1) (acc ++ [⟨.minus, "-", line, col + 1⟩])
    else if c = '*' ∧ cs.head? = some '=' then
      lexLoop fuel cs.tail line (col + 2) (acc ++ [⟨.multiplyEqual, "*=", line, col + 1⟩])
    else if c = '*' then
      lexLoop fuel cs line (col + 1) (acc ++ [⟨.multiply, "*", line, col + 1⟩])
    else if c = '/' ∧ cs.head? = some '=' then
      lexLoop fuel cs.tail line (col + 2) (acc ++ [⟨.divideEqual, "/=", line, col + 1⟩])
    else if c = '/' then
      lexLoop fuel cs line (col + 1) (acc ++ [⟨.divide, "/", line, col + 1⟩])
    else if c = '^' then
      lexLoop fuel cs line (col + 1) (acc ++ [⟨.exponent, "^", line, col + 1⟩])
    else if c = '[' then
      lexLoop fuel cs line (col + 1) (acc ++ [⟨.arrayOpen, "[", line, col + 1⟩])
    else if c = ']' then
      lexLoop fuel cs line (col + 1) (acc ++ [⟨.arrayClose, "]", line, col + 1⟩])
    else if c = '(' then
      lexLoop fuel cs line (col + 1) (acc ++ [⟨.parenOpen, "(", line, col + 1⟩])
    else if c = ')' then
      lexLoop fuel cs line (col + 1) (acc ++ [⟨.parenClose, ")", line, col + 1⟩])
    else if c = '\x7b' then
      lexLoop fuel cs line (col + 1) (acc ++ [⟨.braceOpen, "\x7b", line, col + 1⟩])
    else if c = '\x7d' then
      lexLoop fuel cs line (col + 1) (acc ++ [⟨.braceClose, "\x7d", line, col + 1⟩])
    else if c = ':' ∧ cs.head? = some '=' then
      lexLoop fuel cs.tail line (col + 2) (acc ++ [⟨.assignment, ":=", line, col + 1⟩])
    else if c = ';' then
      lexLoop fuel cs line (col + 1) (acc ++ [⟨.semicolon, ";", line, col + 1⟩])
    else if c = ',' then
      lexLoop fuel cs line (col + 1) (acc ++ [⟨.comma, ",", line, col + 1⟩])
    else if c = '.' ∧ cs.head? = some '.' then
      lexLoop fuel cs.tail line (col + 2) (acc ++ [⟨.range, "..", line, col + 1⟩])
    else if c.isAlpha then
      -- `consume_identifier`: absorb the alphanumeric/underscore run; the
      -- recorded column is the Python `self.column` after that run.
      let run := cs.takeWhile isIdentChar
      let lit := String.mk (c :: run)
      lexLoop fuel (cs.dropWhile isIdentChar) line (col + 1 + run.length)
        (acc ++ [⟨identKind lit, lit, line, col + 1 + run.length⟩])
    else if c.isDigit then
      -- `consume_number`: absorb the digit/dot run.
      let run := cs.takeWhile isNumberChar
      lexLoop fuel (cs.dropWhile isNumberChar) line (col + 1 + run.length)
        (acc ++ [⟨.number, String.mk (c :: run), line, col + 1 + run.length⟩])
    else
      some (.error ⟨c, line, col + 1⟩)

def tokenize (s : String) : Except LexError (List Token) :=
  (lexLoop (s.data.length + 1) s.data 1 0 []).getD (.ok [])

/-! ## AST (`src/compiler/ast.py`) -/

inductive BinaryExpressionKind where
  | plus | minus | multiply | divide | exponent
deriving DecidableEq, Repr

/--
Expression nodes of `src/compiler/ast.py`: `ASTIdentifier`, `ASTNumber`,
`ASTBinaryExpression`, and `ASTFunctionCall` in expression position
(`ASTFunctionCall` is dual-natured in the Python class hierarchy: it derives
from both `ASTExpression` and `ASTStatement`).
-/
inductive ASTExpr where
  | ident (name : String)
  | number (literal : String)
  | binary (operation : BinaryExpressionKind) (left right : ASTExpr)
  | call (function : String) (parameters : List ASTExpr)
deriving Repr

/-- Statement nodes: `ASTVariableDeclaration` and `ASTFunctionCall` in
statement position. -/
inductive ASTStmt where
  | decl (identifier : String) (expression : ASTExpr)
  | callStmt (function : String) (parameters : List ASTExpr)
deriving Repr

/-- `ASTProgram.nodes`. -/
abbrev ASTProgram := List ASTStmt

/-! ## Parser (`src/compiler/parser.py`)

The Python parser can hit three runtime faults, each modelled explicitly:
`attributeError` (`.kind` on the `None` returned by `peek`), `indexError`
(`advance` past the end of `self.tokens`), and `unboundLocal` (reading the
local `expression` when neither the `IDENTIFIER` nor the `NUMBER` branch
assigned it).  `outOfFuel` is an artefact of the embedding only: every
recursive call of the Python parser first consumes tokens, so a fuel larger
than a small multiple of the token count is never exhausted.
-/

inductive PyErr where
  | attributeError | indexError | unboundLocal | valueError | outOfFuel
deriving DecidableEq, Repr

/-- `BinaryExpressionKind(kind.value)`: defined on the five operator kinds,
`ValueError` (`none`) otherwise. -/
def binaryKindOfValue : TokenKind → Option BinaryExpressionKind
  | .plus => some .plus
  | .minus => some .minus
  | .multiply => some .multiply
  | .divide => some .divide
  | .exponent => some .exponent
  | _ => none

/--
Call descriptor for the four mutually recursive parsing procedures of
`Parser` (`expression`, its operator `while` loop, `function_call`, and its
parameter `while` loop).  They are embedded as one fuel-indexed function
`runParser` so that the recursion is structural; the quantities carried are
the Python locals of each procedure.
-/
inductive PCall where
  | expressionAt (pos limit : Nat)
  | exprTailAt (pos : Nat) (acc : Option ASTExpr) (limit : Nat)
  | functionCallAt (pos : Nat)
  | fcParamsAt (pos : Nat) (acc : List ASTExpr)

/-- The return value of each parsing procedure. -/
@[reducible] def PCall.Res : PCall → Type
  | .expressionAt .. => ASTExpr
  | .exprTailAt .. => ASTExpr
  | .functionCallAt .. => String × List ASTExpr
  | .fcParamsAt .. => List ASTExpr

/--
The mutually recursive core of `Parser` (`src/compiler/parser.py`).  Position
`pos` is the Python field `self.current`; the returned `Nat` is its final
value.

* `.expressionAt pos limit` — `Parser.expression(precedence_limit)` up to the
  point where the primary has been read and `advance()` executed; the local
  variable `expression` becomes the `Option ASTExpr` accumulator of
  `.exprTailAt` (`none` = unbound local).
* `.exprTailAt` — the `while next_token is not None and
  next_token.kind.is_operator()` loop of `Parser.expression`.
* `.functionCallAt` — `Parser.function_call`; the result is
  `(function.name, parameters)` of the produced `ASTFunctionCall`.
* `.fcParamsAt` — the parameter-collecting `while` loop of
  `Parser.function_call`.
-/
def runParser (ts : List Token) : (fuel : Nat) → (c : PCall) → Except PyErr (c.Res × Nat)
  | 0, _ => .error .outOfFuel
  | fuel + 1, .expressionAt pos limit =>
    match ts[pos]? with
    | none => .error .attributeError          -- `token.kind` with `token = None`
    | some token =>
      if token.kind = .identifier then
        match ts[pos + 1]? with
        | none => .error .attributeError      -- `self.peek(lookahead=1).kind` on `None`
        | some lookahead =>
          if lookahead.kind = .parenOpen then
            -- `return self.function_call()`
            (runParser ts fuel (.functionCallAt pos)).map fun (fc, p) =>
              (.call fc.1 fc.2, p)
          else
            runParser ts fuel (.exprTailAt (pos + 1) (some (.ident token.literal)) limit)
      else if token.kind = .number then
        runParser ts fuel (.exprTailAt (pos + 1) (some (.number token.literal)) limit)
      else
        -- no branch assigned `expression`; `advance()` still runs
        runParser ts fuel (.exprTailAt (pos + 1) none limit)
  | fuel + 1, .exprTailAt pos acc limit =>
    match ts[pos]? with
    | none =>
      match acc with
      | some e => .ok (e, pos)                -- final `return expression`
      | none => .error .unboundLocal
    | some nextToken =>
      if nextToken.kind.isOperator then
        let precedence := nextToken.kind.operatorPrecedence
        let finalPrecedence :=
          if nextToken.kind.operatorAssociativity = .right
          then precedence - 1 else precedence
        if precedence ≤ limit then
          match acc with
          | some e => .ok (e, pos)            -- `return expression`
          | none => .error .unboundLocal
        else
          -- consume the operator: `BinaryExpressionKind(self.advance().kind.value)`
          match binaryKindOfValue nextToken.kind with
          | none => .error .valueError
          | some operator =>
            match runParser ts fuel (.expressionAt (pos + 1) finalPrecedence) with
            | .error e => .error e
            | .ok (right, p2) =>
              match acc with
              | none => .error .unboundLocal  -- reading unbound `expression`
              | some e =>
                runParser ts fuel (.exprTailAt p2 (some (.binary operator e right)) limit)
      else
        match acc with
        | some e => .ok (e, pos)              -- final `return expression`
        | none => .error .unboundLocal
  | fuel + 1, .functionCallAt pos =>
    match ts[pos]? with
    | none => .error .indexError              -- `self.advance()` out of range
    | some functionToken =>
      match ts[pos + 1]? with
      | none => .error .indexError            -- second `advance()` (open paren)
      | some _ =>
        match runParser ts fuel (.fcParamsAt (pos + 2) []) with
        | .error e => .error e
        | .ok (parameters, p) =>
          match ts[p]? with
          | none => .error .attributeError    -- `self.peek().kind` on `None`
          | some t =>
            if t.kind = .semicolon then
              .ok ((functionToken.literal, parameters), p + 1)
            else
              .ok ((functionToken.literal, parameters), p)
  | fuel + 1, .fcParamsAt pos acc =>
    match ts[pos]? with
    | none => .ok (acc, pos)                  -- loop guard: `token is not None`
    | some token =>
      if token.kind = .parenClose then
        .ok (acc, pos)
      else if token.kind = .comma then
        runParser ts fuel (.fcParamsAt (pos + 1) acc)   -- consume the comma
      else
        match runParser ts fuel (.expressionAt pos 0) with
        | .error e => .error e
        | .ok (e, p) => runParser ts fuel (.fcParamsAt p (acc ++ [e]))

/-- `Parser.expression(precedence_limit)`. -/
def expression (ts : List Token) (fuel pos limit : Nat) :
    Except PyErr (ASTExpr × Nat) :=
  runParser ts fuel (.expressionAt pos limit)

/-- The operator-folding `while` loop of `Parser.expression`. -/
def exprTail (ts : List Token) (fuel pos : Nat) (acc : Option ASTExpr)
    (limit : Nat) : Except PyErr (ASTExpr × Nat) :=
  runParser ts fuel (.exprTailAt pos acc limit)

/-- `Parser.function_call`. -/
def functionCall (ts : List Token) (fuel pos : Nat) :
    Except PyErr ((String × List ASTExpr) × Nat) :=
  runParser ts fuel (.functionCallAt pos)

/-- The parameter-collecting `while` loop of `Parser.function_call`. -/
def fcParams (ts : List Token) (fuel pos : Nat) (acc : List ASTExpr) :
    Except PyErr (List ASTExpr × Nat) :=
  runParser ts fuel (.fcParamsAt pos acc)

/-- `Parser.declaration`. -/
def declaration (ts : List Token) (fuel pos : Nat) :
    Except PyErr (ASTStmt × Nat) :=
  match ts[pos]? with
  | none => .error .indexError                -- `self.advance()` (identifier)
  | some identifierToken =>
    match ts[pos + 1]? with
    | none => .error .indexError              -- `self.advance()` (assignment)
    | some _ =>
      match expression ts fuel (pos + 2) 0 with
      | .error e => .error e
      | .ok (e, p) =>
        match ts[p]? with
        | none => .error .indexError          -- `self.advance()` (semicolon)
        | some _ => .ok (.decl identifierToken.literal e, p + 1)

/-- `Parser.statement`: `none` means the Python method returned `None`. -/
def statement (ts : List Token) (fuel pos : Nat) :
    Except PyErr (Option ASTStmt × Nat) :=
  match ts[pos]? with
  | none => .ok (none, pos)
  | some token =>
    if token.kind = .identifier then
      match ts[pos + 1]? with
      | none => .error .attributeError        -- `next_token.kind` with `next_token = None`
      | some nextToken =>
        if nextToken.kind = .assignment then
          (declaration ts fuel pos).map fun (d, p) => (some d, p)
        else if nextToken.kind = .parenOpen then
          (functionCall ts fuel pos).map fun (fc, p) =>
            (some (.callStmt fc.1 fc.2), p)
        else
          .ok (none, pos)
    else
      .ok (none, pos)

/-- The `while (statement := self.statement()) is not None` loop of
`Parser.parse`. -/
def parseLoop (ts : List Token) :
    Nat → Nat → ASTProgram → Except PyErr (ASTProgram × Nat)
  | 0, _, _ => .error .outOfFuel
  | fuel + 1, pos, acc =>
    match statement ts fuel pos with
    | .error e => .error e
    | .ok (none, p) => .ok (acc, p)
    | .ok (some s, p) => parseLoop ts fuel p (acc ++ [s])

/-- `Parser(tokens).parse()`, also exposing the final `self.current`. -/
def parse (ts : List Token) : Except PyErr (ASTProgram × Nat) :=
  parseLoop ts (4 * ts.length + 16) 0 []

/-- Lex then parse, as `main()` chains `Lexer.tokenize` and `Parser.parse`;
`none` when lexing already fails. -/
def lexParse (s : String) : Option (Except PyErr (ASTProgram × Nat)) :=
  match tokenize s with
  | .error _ => none
  | .ok ts => some (parse ts)

/-! ## IR model and builder (`src/compiler/ir/builder.py`)

The builder's mutable state is passed explicitly: `current_variable_id` is the
`Nat` threaded through every call, and the `instructions` list is returned as
the chunk each call appends (the Python `emit` appends to a shared list, so
the full list is the in-order concatenation of the chunks).
-/

inductive IRLiteralType where
  | integer | floating | ptr
deriving DecidableEq, Repr

/-- `IRTerm`: `IRLiteral` or `IRVariable` (the `id` counter value). -/
inductive IRTerm where
  | lit (literal : String) (type : IRLiteralType)
  | var (id : Nat)
deriving DecidableEq, Repr

inductive IRInstructionKind where
  | add | sub | mul | div | exp
  | alloc | load | store | const
  | callKind | ret
deriving DecidableEq, Repr

/-- `type IROperands = Tuple[IRTerm, IRTerm] | IRTerm`; the builder also
passes `operands=None`. -/
inductive IROperands where
  | noOperands
  | one (t : IRTerm)
  | two (a b : IRTerm)
deriving DecidableEq, Repr

/-- `IRInstruction`: `result` is `None` or an `IRVariable` id. -/
structure IRInstruction where
  kind : IRInstructionKind
  result : Option Nat
  operands : IROperands
deriving DecidableEq, Repr

/-- `kind_map` of the `ASTBinaryExpression` lowering rule. -/
def kindMap : BinaryExpressionKind → IRInstructionKind
  | .plus => .add
  | .minus => .sub
  | .multiply => .mul
  | .divide => .div
  | .exponent => .exp

/-- The fallback of the `singledispatchmethod`:
`raise NotImplementedError(f"IR generation not implemented for {ast}")`. -/
inductive BuildError where
  | notImplementedError
deriving DecidableEq, Repr

/--
`IRBuilder.build` on expression nodes.  Given the entry value of
`current_variable_id`, returns the result variable id, the instructions this
call emits (in emission order), and the exit counter value.

* `ASTNumber`: fresh variable, `CONST result, IRLiteral(literal, INTEGER)`.
* `ASTIdentifier`: fresh variable, `LOAD result, IRLiteral(name, PTR)`.
* `ASTBinaryExpression`: `left = self.build(node.left)` and
  `right = self.build(node.left)` — both operands lowered from the *left*
  subtree, exactly as the source does; then a fresh result variable and the
  `kind_map` instruction with operand pair `(left, right)`.
* `ASTFunctionCall`: no `@build.register` rule matches it (only `ASTProgram`,
  `ASTNumber`, `ASTIdentifier`, `ASTVariableDeclaration`,
  `ASTBinaryExpression` are registered), so dispatch falls back to
  `NotImplementedError`.
-/
def buildExpr : ASTExpr → Nat → Except BuildError (Nat × List IRInstruction × Nat)
  | .number literal, ctr =>
    .ok (ctr, [⟨.const, some ctr, .one (.lit literal .integer)⟩], ctr + 1)
  | .ident name, ctr =>
    .ok (ctr, [⟨.load, some ctr, .one (.lit name .ptr)⟩], ctr + 1)
  | .binary operation left _right, ctr =>
    match buildExpr left ctr with
    | .error e => .error e
    | .ok (l, i1, c1) =>
      match buildExpr left c1 with        -- source: `self.build(node.left)` again
      | .error e => .error e
      | .ok (r, i2, c2) =>
        .ok (c2, i1 ++ i2 ++ [⟨kindMap operation, some c2, .two (.var l) (.var r)⟩],
             c2 + 1)
  | .call _ _, _ => .error .notImplementedError

/--
`IRBuilder.build` on statement nodes (no value, so only instructions and the
exit counter are returned).

* `ASTVariableDeclaration`: fresh variable, `ALLOC` with `operands=None`,
  lower the initializer, `STORE` with `result=None` and operand pair
  `(allocated variable, expression value variable)`.
* `ASTFunctionCall`: unregistered — `NotImplementedError`.
-/
def buildStmt : ASTStmt → Nat → Except BuildError (List IRInstruction × Nat)
  | .decl _ e, ctr =>
    match buildExpr e (ctr + 1) with
    | .error err => .error err
    | .ok (v, i, c') =>
      .ok (⟨.alloc, some ctr, .noOperands⟩ :: i ++
            [⟨.store, none, .two (.var ctr) (.var v)⟩], c')
  | .callStmt _ _, _ => .error .notImplementedError

/-- `IRBuilder.build` on `ASTProgram`: lower every child in order. -/
def buildProgram : ASTProgram → Nat → Except BuildError (List IRInstruction × Nat)
  | [], ctr => .ok ([], ctr)
  | s :: rest, ctr =>
    match buildStmt s ctr with
    | .error e => .error e
    | .ok (i1, c1) =>
      match buildProgram rest c1 with
      | .error e => .error e
      | .ok (i2, c2) => .ok (i1 ++ i2, c2)

/-- `IRBuilder()` then `build(program)`: the counter starts at `0` and the
instruction list starts empty. -/
def build (p : ASTProgram) : Except BuildError (List IRInstruction × Nat) :=
  buildProgram p 0

/-- The result variable ids of an instruction sequence, in emission order
(instructions with `result = None`, i.e. `Store`, contribute nothing). -/
def resultIds (l : List IRInstruction) : List Nat := l.filterMap (·.result)

/-- The variable ids in a term. -/
def termVars : IRTerm → List Nat
  | .var i => [i]
  | .lit _ _ => []

/-- The variable ids referenced by an operand bundle. -/
def operandVars : IROperands → List Nat
  | .noOperands => []
  | .one t => termVars t
  | .two a b => termVars a ++ termVars b

/-- Def-before-use: scanning the instruction sequence left to right with the
list `ds` of already-defined variable ids, every variable operand must already
be defined, and each instruction's result id is added afterwards. -/
def defBeforeUse : List Nat → List IRInstruction → Bool
  | _, [] => true
  | ds, ins :: rest =>
    (operandVars ins.operands).all (fun v => decide (v ∈ ds)) &&
    defBeforeUse (ds ++ ins.result.toList) rest


/-! ## Claims about the lexer (C10)

Claim-side notions, independent of the scanner: which positions of a source
are inside a `#`-to-end-of-line comment, the standard line/column of a
position, and which characters are unrecognizable (given their one-character
lookahead, which disambiguates `:=` and `..`).
-/

/-- One step of the comment automaton: `#` opens a comment, a newline closes
it, every other character preserves the state. -/
def commentStep (b : Bool) (c : Char) : Bool :=
  if c = '\n' then false else if c = '#' then true else b

/-- Whether the position *after* the given characters is inside a comment;
a character at index `j` of `cs` is outside every comment iff
`commentState (cs.take j) = false`. -/
def commentState (cs : List Char) : Bool := cs.foldl commentStep false

/-- Standard line/column walking: a newline increments the line and resets
the column, any other character advances the column. -/
def advLC (p : Nat × Nat) (cs : List Char) : Nat × Nat :=
  cs.foldl (fun q c => if c = '\n' then (q.1 + 1, 0) else (q.1, q.2 + 1)) p

/-- The characters recognized as one-character symbol tokens regardless of
lookahead. -/
def singleSymbolChars : List Char :=
  ['+', '-', '*', '/', '^', '[', ']', '(', ')', '\x7b', '\x7d', ';', ',']

/-- A character the scanner cannot recognize: not whitespace, not a newline,
not the comment marker, not alphabetic or numeric, not a single-character
symbol, and not forming `:=` or `..` with its lookahead. -/
def unrecognizedChar (c : Char) (next : Option Char) : Bool :=
  !(c = ' ' || c = '\t' || c = '\r' || c = '\n' || c = '#') &&
  !singleSymbolChars.contains c &&
  !(c = ':' && next = some '=') &&
  !(c = '.' && next = some '.') &&
  !c.isAlpha && !c.isDigit


/-- What C10 asserts about a raised `LexError`: the offending character is at
index `j` of the source, it is unrecognizable given its lookahead, it lies
outside every comment, and the reported line/column are the standard
line/column of index `j` (continuing the walk from `(line, col)`). -/
def SoundWitnessAt (cs : List Char) (line col : Nat) (e : LexError) (j : Nat) :
    Prop :=
  cs[j]? = some e.char ∧
  unrecognizedChar e.char cs[j + 1]? = true ∧
  commentState (cs.take j) = false ∧
  e.line = (advLC (line, col) (cs.take j)).1 ∧
  e.column = (advLC (line, col) (cs.take j)).2 + 1


/-- The token sequence `Lexer("f(1, 2);").tokenize()` produces (checked below
in `c2_function_call_statement`). -/
def fTokens : List Token :=
  [⟨.identifier, "f", 1, 1⟩, ⟨.parenOpen, "(", 1, 2⟩, ⟨.number, "1", 1, 3⟩,
   ⟨.comma, ",", 1, 4⟩, ⟨.number, "2", 1, 6⟩, ⟨.parenClose, ")", 1, 7⟩,
   ⟨.semicolon, ";", 1, 8⟩]


/-! ## Claims about the parser -/

set_option maxRecDepth 4000

theorem length_dropWhile_le (p : Char → Bool) (l : List Char) :
    (l.dropWhile p).length ≤ l.length := by
  have h := congrArg List.length (List.takeWhile_append_dropWhile (p := p) (l := l))
  simp only [List.length_append] at h
  omega


/--
C6: the exponent operator is right-associative and the additive and
multiplicative operators are left-associative: parsing the tokens of
`"x := 2 ^ 3 ^ 2;"` yields `Exponent(2, Exponent(3, 2))`, and parsing the
tokens of `"x := 1 - 2 - 3;"` yields `Minus(Minus(1, 2), 3)`.  (The token
sequences are obtained from the embedded lexer; both parses consume all
eight tokens.)
-/
theorem c6_associativity :
    lexParse "x := 2 ^ 3 ^ 2;" =
      some (.ok ([.decl "x" (.binary .exponent (.number "2")
        (.binary .exponent (.number "3") (.number "2")))], 8)) ∧
    lexParse "x := 1 - 2 - 3;" =
      some (.ok ([.decl "x" (.binary .minus
        (.binary .minus (.number "1") (.number "2")) (.number "3"))], 8)) :=
  ⟨by rfl, by rfl⟩

/--
C7: multiplicative operators bind tighter than additive ones — lexing and
parsing `"x := 1 + 2 * 3;"` yields a declaration whose expression is
`Plus(1, Multiply(2, 3))` — and the precedence table assigns additive = 1,
multiplicative = 2, exponent = 3, and 0 to every non-operator kind.
-/
theorem c7_precedence :
    lexParse "x := 1 + 2 * 3;" =
      some (.ok ([.decl "x" (.binary .plus (.number "1")
        (.binary .multiply (.number "2") (.number "3")))], 8)) ∧
    TokenKind.operatorPrecedence .plus = 1 ∧
    TokenKind.operatorPrecedence .minus = 1 ∧
    TokenKind.operatorPrecedence .multiply = 2 ∧
    TokenKind.operatorPrecedence .divide = 2 ∧
    TokenKind.operatorPrecedence .exponent = 3 ∧
    (∀ k : TokenKind, k.isOperator = false → k.operatorPrecedence = 0) := by
  refine ⟨by rfl, rfl, rfl, rfl, rfl, rfl, ?_⟩
  intro k hk
  cases k <;> first | rfl | simp [TokenKind.isOperator, TokenKind.value] at hk

/-- C7 witness: the non-operator conjunct applied at the semicolon kind. -/
theorem c7_precedence_witness :
    TokenKind.operatorPrecedence .semicolon = 0 :=
  c7_precedence.2.2.2.2.2.2 .semicolon rfl

/--
C2: evaluation of the code at the failing input `"f(1, 2);"`.  Parsing does
yield a program with exactly one `FunctionCall` statement whose arguments are
the numbers 1 and 2 — but the final parser position is 5 of 7 tokens: the
closing parenthesis (token 5) and the trailing semicolon (token 6) are NOT
consumed, because `function_call`'s parameter loop stops *at* `PAREN_CLOSE`
without advancing past it, so the subsequent `peek()` always sees the closing
parenthesis and the semicolon-consuming branch can never fire, contradicting
the claim (and the comment in the source that says the token is consumed).
-/
theorem c2_function_call_statement :
    tokenize "f(1, 2);" = .ok fTokens ∧
    fTokens.length = 7 ∧
    (fTokens[5]?).map Token.kind = some .parenClose ∧
    (fTokens[6]?).map Token.kind = some .semicolon ∧
    functionCall fTokens 44 0 = .ok (("f", [.number "1", .number "2"]), 5) ∧
    parse fTokens = .ok ([.callStmt "f" [.number "1", .number "2"]], 5) :=
  ⟨by rfl, rfl, rfl, rfl, by rfl, by rfl⟩

/--
C3 counterexample: parsing the tokens of `"x := f(1) + 2;"` does NOT yield a
declaration of a `BinaryExpression(Plus)` with the call as left operand — it
yields `VariableDeclaration(x, FunctionCall(f, [1]))`, stopping at position 6
of the 9 tokens, so the claimed AST differs from the produced one.
-/
theorem c3_call_operand_counterexample :
    lexParse "x := f(1) + 2;" =
      some (.ok ([.decl "x" (.call "f" [.number "1"])], 6)) ∧
    ([ASTStmt.decl "x" (.call "f" [.number "1"])] ≠
      [ASTStmt.decl "x" (.binary .plus (.call "f" [.number "1"]) (.number "2"))]) :=
  ⟨by rfl, by simp⟩

/--
C3 amended: a function call in expression-operand position is returned
*directly* from `Parser.expression`, bypassing the operator-folding loop, so
`"x := f(1) + 2;"` parses as `VariableDeclaration(x, FunctionCall(f, [1]))`:
the closing parenthesis is consumed by `declaration` in place of the expected
semicolon and parsing then stops silently, leaving `+ 2 ;` (tokens 6 to 8 of
the 9) unconsumed; no semicolon is consumed by the call itself.
-/
theorem c3_call_operand_amended :
    lexParse "x := f(1) + 2;" =
      some (.ok ([.decl "x" (.call "f" [.number "1"])], 6)) ∧
    (tokenize "x := f(1) + 2;").map List.length = .ok 9 ∧
    (∀ (ts : List Token) (fuel pos limit : Nat) (t l : Token),
      ts[pos]? = some t → t.kind = .identifier →
      ts[pos + 1]? = some l → l.kind = .parenOpen →
      expression ts (fuel + 1) pos limit =
        (functionCall ts fuel pos).map fun (fc, p) => (.call fc.1 fc.2, p)) := by
  refine ⟨by rfl, by rfl, ?_⟩
  intro ts fuel pos limit t l ht htk hl hlk
  simp [expression, runParser, ht, htk, hl, hlk, functionCall]

/-- C3 amended witness: the early-return conjunct applied to the concrete
token sequence of `"x := f(1) + 2;"` at the call position 2. -/
theorem c3_call_operand_amended_witness :
    expression [⟨.identifier, "x", 1, 1⟩, ⟨.assignment, ":=", 1, 3⟩,
        ⟨.identifier, "f", 1, 6⟩, ⟨.parenOpen, "(", 1, 7⟩, ⟨.number, "1", 1, 8⟩,
        ⟨.parenClose, ")", 1, 9⟩, ⟨.plus, "+", 1, 11⟩, ⟨.number, "2", 1, 13⟩,
        ⟨.semicolon, ";", 1, 14⟩] 42 2 0 =
      (functionCall [⟨.identifier, "x", 1, 1⟩, ⟨.assignment, ":=", 1, 3⟩,
        ⟨.identifier, "f", 1, 6⟩, ⟨.parenOpen, "(", 1, 7⟩, ⟨.number, "1", 1, 8⟩,
        ⟨.parenClose, ")", 1, 9⟩, ⟨.plus, "+", 1, 11⟩, ⟨.number, "2", 1, 13⟩,
        ⟨.semicolon, ";", 1, 14⟩] 41 2).map fun (fc, p) => (.call fc.1 fc.2, p) :=
  c3_call_operand_amended.2.2 _ 41 2 0 _ _ rfl rfl rfl rfl

/--
C5 counterexample: on the single-token sequence `[IDENTIFIER "x"]` — an
identifier that is the last token — `Parser.parse` does NOT silently stop
with the accumulated program: `statement` evaluates `next_token.kind` with
`next_token = None` and the parse fails with an `AttributeError`.
-/
theorem c5_counterexample :
    parse [⟨.identifier, "x", 1, 1⟩] = .error .attributeError := by rfl

/--
C5 amended: statement dispatch silently ends parsing — returning the program
accumulated so far without consuming anything and without an error — when the
token stream is exhausted, when the leading token is not an `IDENTIFIER`, or
when an `IDENTIFIER` is followed by an existing token that is neither `:=`
nor `(`; but when an `IDENTIFIER` is the *last* token, the lookahead is
`None` and parsing raises an `AttributeError` instead of stopping.
-/
theorem c5_silent_stop_amended :
    ∀ (ts : List Token) (fuel pos : Nat) (acc : ASTProgram),
    (ts[pos]? = none → parseLoop ts (fuel + 1) pos acc = .ok (acc, pos)) ∧
    (∀ t, ts[pos]? = some t → t.kind ≠ .identifier →
      parseLoop ts (fuel + 1) pos acc = .ok (acc, pos)) ∧
    (∀ t u, ts[pos]? = some t → t.kind = .identifier →
      ts[pos + 1]? = some u → u.kind ≠ .assignment → u.kind ≠ .parenOpen →
      parseLoop ts (fuel + 1) pos acc = .ok (acc, pos)) ∧
    (∀ t, ts[pos]? = some t → t.kind = .identifier → ts[pos + 1]? = none →
      parseLoop ts (fuel + 1) pos acc = .error .attributeError) := by
  intro ts fuel pos acc
  refine ⟨fun h => ?_, fun t ht hk => ?_, fun t u ht hk hu hua hup => ?_,
    fun t ht hk hu => ?_⟩
  · simp [parseLoop, statement, h]
  · simp [parseLoop, statement, ht, hk]
  · simp [parseLoop, statement, ht, hk, hu, hua, hup]
  · simp [parseLoop, statement, ht, hk, hu]

/-- C5 amended witness: the four cases at concrete token sequences (empty
stream; leading semicolon; identifier followed by a number; identifier as the
last token). -/
theorem c5_silent_stop_amended_witness :
    parseLoop [] 1 0 [] = .ok ([], 0) ∧
    parseLoop [⟨.semicolon, ";", 1, 1⟩] 1 0 [] = .ok ([], 0) ∧
    parseLoop [⟨.identifier, "x", 1, 1⟩, ⟨.number, "1", 1, 3⟩] 1 0 [] =
      .ok ([], 0) ∧
    parseLoop [⟨.identifier, "x", 1, 1⟩] 1 0 [] = .error .attributeError :=
  ⟨(c5_silent_stop_amended [] 0 0 []).1 rfl,
   (c5_silent_stop_amended [⟨.semicolon, ";", 1, 1⟩] 0 0 []).2.1 _ rfl
     (by intro h; cases h),
   (c5_silent_stop_amended [⟨.identifier, "x", 1, 1⟩, ⟨.number, "1", 1, 3⟩]
       0 0 []).2.2.1 _ _ rfl rfl rfl (by intro h; cases h) (by intro h; cases h),
   (c5_silent_stop_amended [⟨.identifier, "x", 1, 1⟩] 0 0 []).2.2.2 _ rfl rfl rfl⟩

/-! ## Claims about the IR builder -/

theorem resultIds_cons (ins : IRInstruction) (l : List IRInstruction) :
    resultIds (ins :: l) = ins.result.toList ++ resultIds l := by
  cases ins with
  | mk kind result operands => cases result <;> simp [resultIds]

theorem resultIds_append (a b : List IRInstruction) :
    resultIds (a ++ b) = resultIds a ++ resultIds b := by
  simp [resultIds]

theorem defBeforeUse_append (ds : List Nat) (xs ys : List IRInstruction) :
    defBeforeUse ds (xs ++ ys) =
      (defBeforeUse ds xs && defBeforeUse (ds ++ resultIds xs) ys) := by
  induction xs generalizing ds with
  | nil => simp [defBeforeUse, resultIds]
  | cons ins rest ih =>
    simp only [List.cons_append, defBeforeUse, List.append_eq, ih,
      resultIds_cons, List.append_assoc, Bool.and_assoc]

theorem defBeforeUse_mono (ds ds' : List Nat) (xs : List IRInstruction)
    (hsub : ∀ a, a ∈ ds → a ∈ ds') (h : defBeforeUse ds xs = true) :
    defBeforeUse ds' xs = true := by
  induction xs generalizing ds ds' with
  | nil => simp [defBeforeUse]
  | cons ins rest ih =>
    simp only [defBeforeUse, Bool.and_eq_true, List.all_eq_true,
      decide_eq_true_eq] at h ⊢
    refine ⟨fun v hv => hsub v (h.1 v hv), ?_⟩
    refine ih (ds ++ ins.result.toList) (ds' ++ ins.result.toList) ?_ h.2
    intro a ha
    rcases List.mem_append.mp ha with ha | ha
    · exact List.mem_append.mpr (Or.inl (hsub a ha))
    · exact List.mem_append.mpr (Or.inr ha)

theorem range'_glue (a b c : Nat) (hab : a ≤ b) (hbc : b ≤ c) :
    List.range' a (b - a) ++ List.range' b (c - b) = List.range' a (c - a) := by
  have h := List.range'_append a (b - a) (c - b) 1
  have e1 : a + 1 * (b - a) = b := by omega
  have e2 : c - b + (b - a) = c - a := by omega
  rw [e1, e2] at h
  exact h

theorem range'_snoc (a b : Nat) (hab : a ≤ b) :
    List.range' a (b - a) ++ [b] = List.range' a (b + 1 - a) := by
  have h := List.range'_1_concat a (b - a)
  have e1 : a + (b - a) = b := by omega
  have e2 : b - a + 1 = b + 1 - a := by omega
  rw [e1, e2] at h
  exact h.symm

/--
Structural invariants of `IRBuilder.build` on expressions: starting from
counter `c`, a successful lowering strictly raises the counter, the returned
value variable is the last allocated one, the emitted result ids are exactly
the consecutive ids `c, c+1, ..., c'-1` in emission order, and every variable
operand refers to the result of an earlier instruction of the same chunk.
-/
theorem buildExpr_spec :
    (e : ASTExpr) → ∀ (c v : Nat) (i : List IRInstruction) (c' : Nat),
    buildExpr e c = .ok (v, i, c') →
    c < c' ∧ v + 1 = c' ∧ resultIds i = List.range' c (c' - c) ∧
      defBeforeUse [] i = true
  | .ident name => by
    intro c v i c' h
    simp only [buildExpr, Except.ok.injEq, Prod.mk.injEq] at h
    obtain ⟨rfl, rfl, rfl⟩ := h
    refine ⟨by omega, by omega, by simp [resultIds], ?_⟩
    simp [defBeforeUse, operandVars, termVars]
  | .number lit => by
    intro c v i c' h
    simp only [buildExpr, Except.ok.injEq, Prod.mk.injEq] at h
    obtain ⟨rfl, rfl, rfl⟩ := h
    refine ⟨by omega, by omega, by simp [resultIds], ?_⟩
    simp [defBeforeUse, operandVars, termVars]
  | .call f ps => by
    intro c v i c' h
    simp [buildExpr] at h
  | .binary op l r => by
    have ihl := buildExpr_spec l
    intro c v i c' h
    rw [buildExpr] at h
    split at h
    · exact absurd h (by simp)
    next lv i1 c1 hl =>
    split at h
    · exact absurd h (by simp)
    next rv i2 c2 hr =>
    simp only [Except.ok.injEq, Prod.mk.injEq] at h
    obtain ⟨rfl, rfl, rfl⟩ := h
    obtain ⟨hc1, hlv, hres1, hdbu1⟩ := ihl c lv i1 c1 hl
    obtain ⟨hc2, hrv, hres2, hdbu2⟩ := ihl c1 rv i2 c2 hr
    have hresfin :
        resultIds [⟨kindMap op, some c2, .two (.var lv) (.var rv)⟩] = [c2] := by
      simp [resultIds]
    refine ⟨by omega, by omega, ?_, ?_⟩
    · rw [resultIds_append, resultIds_append, hres1, hres2, hresfin,
        range'_glue c c1 c2 (by omega) (by omega),
        range'_snoc c c2 (by omega)]
    · rw [defBeforeUse_append, defBeforeUse_append, Bool.and_eq_true,
        Bool.and_eq_true]
      refine ⟨⟨hdbu1, defBeforeUse_mono [] _ i2 (by simp) hdbu2⟩, ?_⟩
      have hLv : lv ∈ List.range' c (c1 - c) :=
        List.mem_range'_1.mpr ⟨by omega, by omega⟩
      have hRv : rv ∈ List.range' c1 (c2 - c1) :=
        List.mem_range'_1.mpr ⟨by omega, by omega⟩
      simp only [defBeforeUse, operandVars, termVars, resultIds_append,
        hres1, hres2, List.nil_append, List.singleton_append, List.all_cons,
        List.all_nil, Bool.and_true, Bool.and_eq_true, decide_eq_true_eq,
        List.mem_append, List.mem_range'_1]
      omega

/-- Structural invariants of `IRBuilder.build` on statements: the emitted
result ids are exactly the consecutive ids `c, ..., c'-1` and every variable
operand refers to the result of an earlier instruction of the chunk. -/
theorem buildStmt_spec (s : ASTStmt) (c : Nat) (i : List IRInstruction)
    (c' : Nat) (h : buildStmt s c = .ok (i, c')) :
    c ≤ c' ∧ resultIds i = List.range' c (c' - c) ∧
      defBeforeUse [] i = true := by
  cases s with
  | callStmt f ps => simp [buildStmt] at h
  | decl x e =>
    rw [buildStmt] at h
    split at h
    · exact absurd h (by simp)
    next v ei ce he =>
    simp only [Except.ok.injEq, Prod.mk.injEq] at h
    obtain ⟨rfl, rfl⟩ := h
    obtain ⟨hce, hv, hres, hdbu⟩ := buildExpr_spec e (c + 1) v ei ce he
    have hresAll :
        resultIds ((⟨.alloc, some c, .noOperands⟩ :: ei) ++
          [⟨.store, none, .two (.var c) (.var v)⟩]) =
          c :: resultIds ei := by
      rw [resultIds_append, resultIds_cons]
      simp [resultIds]
    refine ⟨by omega, ?_, ?_⟩
    · rw [hresAll, hres]
      have h1 : ce - c = (ce - (c + 1)) + 1 := by omega
      rw [h1, List.range'_succ]
    · rw [defBeforeUse_append, Bool.and_eq_true]
      constructor
      · simp only [defBeforeUse, operandVars, List.all_nil, Bool.true_and,
          List.nil_append, Option.toList_some]
        exact defBeforeUse_mono [] [c] ei (by simp) hdbu
      · rw [resultIds_cons]
        simp only [defBeforeUse, operandVars, termVars, List.singleton_append,
          List.all_cons, List.all_nil, Bool.and_true, Bool.and_eq_true,
          decide_eq_true_eq, List.mem_cons, List.mem_append, hres,
          Bool.true_and, List.mem_range'_1, List.not_mem_nil, or_false,
          List.nil_append, Option.toList_some]
        exact ⟨Or.inl trivial, Or.inr ⟨by omega, by omega⟩⟩

/-- Structural invariants of `IRBuilder.build` on a whole program. -/
theorem buildProgram_spec (p : ASTProgram) :
    ∀ (c : Nat) (i : List IRInstruction) (c' : Nat),
    buildProgram p c = .ok (i, c') →
    c ≤ c' ∧ resultIds i = List.range' c (c' - c) ∧
      defBeforeUse [] i = true := by
  induction p with
  | nil =>
    intro c i c' h
    simp only [buildProgram, Except.ok.injEq, Prod.mk.injEq] at h
    obtain ⟨rfl, rfl⟩ := h
    simp [resultIds, defBeforeUse]
  | cons s rest ih =>
    intro c i c' h
    rw [buildProgram] at h
    split at h
    · exact absurd h (by simp)
    next i1 c1 h1 =>
    split at h
    · exact absurd h (by simp)
    next i2 c2 h2 =>
    simp only [Except.ok.injEq, Prod.mk.injEq] at h
    obtain ⟨rfl, rfl⟩ := h
    obtain ⟨hc1, hres1, hdbu1⟩ := buildStmt_spec s c i1 c1 h1
    obtain ⟨hc2, hres2, hdbu2⟩ := ih c1 i2 c2 h2
    refine ⟨by omega, ?_, ?_⟩
    · rw [resultIds_append, hres1, hres2,
        range'_glue c c1 c2 (by omega) (by omega)]
    · rw [defBeforeUse_append, Bool.and_eq_true]
      exact ⟨hdbu1, defBeforeUse_mono [] _ i2 (by simp) hdbu2⟩

/--
C8: for every AST on which `IRBuilder.build` succeeds, the `Variable` ids
appearing as instruction results are strictly increasing in emission order
(hence never reused), and every `Variable` referenced as an operand is the
result of an earlier instruction in the emitted sequence (def-before-use).
-/
theorem c8_variable_monotonicity (p : ASTProgram) (i : List IRInstruction)
    (c' : Nat) (h : build p = .ok (i, c')) :
    (resultIds i).Pairwise (· < ·) ∧ defBeforeUse [] i = true := by
  obtain ⟨-, hres, hdbu⟩ := buildProgram_spec p 0 i c' h
  refine ⟨?_, hdbu⟩
  rw [hres]
  exact List.pairwise_lt_range' 0 (c' - 0) 1

/-- C8 witness: the invariants instantiated on the successful lowering of
`x := 1 + 2;`. -/
theorem c8_variable_monotonicity_witness :
    (resultIds [⟨.alloc, some 0, .noOperands⟩,
      ⟨.const, some 1, .one (.lit "1" .integer)⟩,
      ⟨.const, some 2, .one (.lit "1" .integer)⟩,
      ⟨.add, some 3, .two (.var 1) (.var 2)⟩,
      ⟨.store, none, .two (.var 0) (.var 3)⟩]).Pairwise (· < ·) ∧
    defBeforeUse [] [⟨.alloc, some 0, .noOperands⟩,
      ⟨.const, some 1, .one (.lit "1" .integer)⟩,
      ⟨.const, some 2, .one (.lit "1" .integer)⟩,
      ⟨.add, some 3, .two (.var 1) (.var 2)⟩,
      ⟨.store, none, .two (.var 0) (.var 3)⟩] = true :=
  c8_variable_monotonicity [.decl "x" (.binary .plus (.number "1") (.number "2"))]
    _ 4 (by rfl)

/-- Expression lowering emits only `Const`, `Load` and arithmetic
instructions — never `Alloc` or `Store`. -/
theorem buildExpr_no_alloc_store :
    (e : ASTExpr) → ∀ (c v : Nat) (i : List IRInstruction) (c' : Nat),
    buildExpr e c = .ok (v, i, c') →
    ∀ ins ∈ i, ins.kind ≠ .alloc ∧ ins.kind ≠ .store
  | .ident name => by
    intro c v i c' h
    simp only [buildExpr, Except.ok.injEq, Prod.mk.injEq] at h
    obtain ⟨rfl, rfl, rfl⟩ := h
    simp
  | .number lit => by
    intro c v i c' h
    simp only [buildExpr, Except.ok.injEq, Prod.mk.injEq] at h
    obtain ⟨rfl, rfl, rfl⟩ := h
    simp
  | .call f ps => by
    intro c v i c' h
    simp [buildExpr] at h
  | .binary op l r => by
    have ih := buildExpr_no_alloc_store l
    intro c v i c' h
    rw [buildExpr] at h
    split at h
    · exact absurd h (by simp)
    next lv i1 c1 hl =>
    split at h
    · exact absurd h (by simp)
    next rv i2 c2 hr =>
    simp only [Except.ok.injEq, Prod.mk.injEq] at h
    obtain ⟨rfl, rfl, rfl⟩ := h
    intro ins hins
    rcases List.mem_append.mp hins with hins | hins
    · rcases List.mem_append.mp hins with hins | hins
      · exact ih c lv i1 c1 hl ins hins
      · exact ih c1 rv i2 c2 hr ins hins
    · rcases List.mem_singleton.mp hins with rfl
      cases op <;> simp [kindMap]

/--
C9: for every `ASTVariableDeclaration`, `IRBuilder.build` emits exactly one
`Alloc` instruction whose result is the freshly allocated variable (the entry
counter value, below every id allocated afterwards), then exactly the
instructions produced by lowering the initializer expression (which contain
no further `Alloc` or `Store`), then exactly one `Store` instruction with no
result and the operand pair (allocated variable, value variable of the
expression); nothing else.
-/
theorem c9_declaration_lowering (x : String) (e : ASTExpr) (c : Nat)
    (i : List IRInstruction) (c' : Nat)
    (h : buildStmt (.decl x e) c = .ok (i, c')) :
    ∃ v ei, buildExpr e (c + 1) = .ok (v, ei, c') ∧
      i = (⟨.alloc, some c, .noOperands⟩ :: ei) ++
          [⟨.store, none, .two (.var c) (.var v)⟩] ∧
      (∀ ins ∈ ei, ins.kind ≠ .alloc ∧ ins.kind ≠ .store) ∧
      (∀ r ∈ resultIds ei, c < r) ∧
      i.countP (fun ins => decide (ins.kind = .alloc)) = 1 ∧
      i.countP (fun ins => decide (ins.kind = .store)) = 1 := by
  rw [buildStmt] at h
  split at h
  · exact absurd h (by simp)
  next v ei ce he =>
  simp only [Except.ok.injEq, Prod.mk.injEq] at h
  obtain ⟨rfl, rfl⟩ := h
  obtain ⟨hce, hv, hres, hdbu⟩ := buildExpr_spec e (c + 1) v ei ce he
  have hnoas := buildExpr_no_alloc_store e (c + 1) v ei ce he
  refine ⟨v, ei, he, rfl, hnoas, ?_, ?_, ?_⟩
  · intro r hr
    rw [hres] at hr
    have := List.mem_range'_1.mp hr
    omega
  · rw [List.countP_append, List.countP_cons]
    have h0 : ei.countP (fun ins => decide (ins.kind = .alloc)) = 0 :=
      List.countP_eq_zero.mpr fun ins hins => by
        simp [(hnoas ins hins).1]
    simp [h0]
  · rw [List.countP_append, List.countP_cons]
    have h0 : ei.countP (fun ins => decide (ins.kind = .store)) = 0 :=
      List.countP_eq_zero.mpr fun ins hins => by
        simp [(hnoas ins hins).2]
    simp [h0]

/-- C9 witness: the lowering of `x := 1;` instantiates the declaration
shape. -/
theorem c9_declaration_lowering_witness :
    ∃ v ei, buildExpr (.number "1") (0 + 1) = .ok (v, ei, 2) ∧
      ([⟨.alloc, some 0, .noOperands⟩,
        ⟨.const, some 1, .one (.lit "1" .integer)⟩,
        ⟨.store, none, .two (.var 0) (.var 1)⟩] : List IRInstruction) =
        (⟨.alloc, some 0, .noOperands⟩ :: ei) ++
          [⟨.store, none, .two (.var 0) (.var v)⟩] ∧
      (∀ ins ∈ ei, ins.kind ≠ .alloc ∧ ins.kind ≠ .store) ∧
      (∀ r ∈ resultIds ei, 0 < r) ∧
      ([⟨.alloc, some 0, .noOperands⟩,
        ⟨.const, some 1, .one (.lit "1" .integer)⟩,
        ⟨.store, none, .two (.var 0) (.var 1)⟩] : List IRInstruction).countP
          (fun ins => decide (ins.kind = .alloc)) = 1 ∧
      ([⟨.alloc, some 0, .noOperands⟩,
        ⟨.const, some 1, .one (.lit "1" .integer)⟩,
        ⟨.store, none, .two (.var 0) (.var 1)⟩] : List IRInstruction).countP
          (fun ins => decide (ins.kind = .store)) = 1 :=
  c9_declaration_lowering "x" (.number "1") 0 _ 2 (by rfl)

/--
C1: for every `ASTBinaryExpression`, `IRBuilder.build` obtains both operand
variables by lowering the *left* subtree — the right subtree is never lowered
and contributes no instructions (the result is independent of it) — then
allocates a fresh result variable and emits the arithmetic instruction
mapped from the operator (`Plus→Add`, `Minus→Sub`, `Multiply→Mul`,
`Divide→Div`, `Exponent→Exp`) with that operand pair.  The final conjunct
shows a concrete instance: lowering `1 + 2` emits `CONST "1"` twice and the
literal `"2"` nowhere.
-/
theorem c1_binary_lowers_left_twice :
    (∀ (op : BinaryExpressionKind) (l r r' : ASTExpr) (c : Nat),
      buildExpr (.binary op l r) c = buildExpr (.binary op l r') c) ∧
    (∀ (op : BinaryExpressionKind) (l r : ASTExpr) (c : Nat),
      buildExpr (.binary op l r) c =
        match buildExpr l c with
        | .error e => .error e
        | .ok (lv, i1, c1) =>
          match buildExpr l c1 with
          | .error e => .error e
          | .ok (rv, i2, c2) =>
            .ok (c2, i1 ++ i2 ++
              [⟨kindMap op, some c2, .two (.var lv) (.var rv)⟩], c2 + 1)) ∧
    kindMap .plus = .add ∧ kindMap .minus = .sub ∧ kindMap .multiply = .mul ∧
    kindMap .divide = .div ∧ kindMap .exponent = .exp ∧
    buildExpr (.binary .plus (.number "1") (.number "2")) 0 =
      .ok (2, [⟨.const, some 0, .one (.lit "1" .integer)⟩,
               ⟨.const, some 1, .one (.lit "1" .integer)⟩,
               ⟨.add, some 2, .two (.var 0) (.var 1)⟩], 3) :=
  ⟨fun op l r r' c => by rw [buildExpr, buildExpr],
   fun op l r c => by rw [buildExpr],
   rfl, rfl, rfl, rfl, rfl, by rfl⟩

/--
C4: `IRBuilder.build` has no lowering rule registered for `ASTFunctionCall`
(a statement variant the parser does produce),
so dispatch falls to the `NotImplementedError` fallback — both in statement
and in expression position — and consequently every program containing a
function-call statement fails to lower.
-/
theorem c4_function_call_not_lowered :
    (∀ (f : String) (ps : List ASTExpr) (c : Nat),
      buildStmt (.callStmt f ps) c = .error .notImplementedError) ∧
    (∀ (f : String) (ps : List ASTExpr) (c : Nat),
      buildExpr (.call f ps) c = .error .notImplementedError) ∧
    (∀ (p : ASTProgram) (c : Nat), (∃ f ps, ASTStmt.callStmt f ps ∈ p) →
      buildProgram p c = .error .notImplementedError) := by
  refine ⟨fun f ps c => rfl, fun f ps c => rfl, ?_⟩
  intro p c hmem
  obtain ⟨f, ps, hmem⟩ := hmem
  induction p generalizing c with
  | nil => cases hmem
  | cons s rest ih =>
    rcases List.mem_cons.mp hmem with rfl | hmem
    · rw [buildProgram]
      simp [buildStmt]
    · rw [buildProgram]
      rcases hb : buildStmt s c with e | ⟨i1, c1⟩
      · cases e
        simp
      · simp only []
        rw [ih c1 hmem]

/-- C4 witness: a one-statement program consisting of the call `f(1)` fails
to lower. -/
theorem c4_function_call_not_lowered_witness :
    buildProgram [ASTStmt.callStmt "f" [ASTExpr.number "1"]] 0 =
      .error .notImplementedError :=
  c4_function_call_not_lowered.2.2 _ 0 ⟨"f", [.number "1"], List.mem_singleton.mpr rfl⟩

theorem commentState_append (a b : List Char) :
    commentState (a ++ b) = b.foldl commentStep (commentState a) :=
  List.foldl_append ..

theorem advLC_append (p : Nat × Nat) (a b : List Char) :
    advLC p (a ++ b) = advLC (advLC p a) b :=
  List.foldl_append ..

theorem commentState_no_hash (l : List Char) (h : ∀ x ∈ l, x ≠ '#') :
    commentState l = false := by
  induction l with
  | nil => rfl
  | cons c cs ih =>
    have hc : commentStep false c = false := by
      have hne := h c (List.mem_cons_self ..)
      simp only [commentStep]
      split <;> simp_all
    show List.foldl commentStep (commentStep false c) cs = false
    rw [hc]
    exact ih fun x hx => h x (List.mem_cons_of_mem _ hx)

theorem foldl_commentStep_true_no_newline (l : List Char)
    (h : ∀ x ∈ l, x ≠ '\n') : l.foldl commentStep true = true := by
  induction l with
  | nil => rfl
  | cons c cs ih =>
    have hc : commentStep true c = true := by
      have hne := h c (List.mem_cons_self ..)
      simp only [commentStep]
      split <;> simp_all
    show List.foldl commentStep (commentStep true c) cs = true
    rw [hc]
    exact ih fun x hx => h x (List.mem_cons_of_mem _ hx)

theorem advLC_no_newline (l : List Char) (h : ∀ x ∈ l, x ≠ '\n') :
    ∀ p : Nat × Nat, advLC p l = (p.1, p.2 + l.length) := by
  induction l with
  | nil => intro p; rfl
  | cons c cs ih =>
    intro p
    have hc : c ≠ '\n' := h c (List.mem_cons_self ..)
    show advLC (if c = '\n' then (p.1 + 1, 0) else (p.1, p.2 + 1)) cs = _
    rw [if_neg hc, ih (fun x hx => h x (List.mem_cons_of_mem _ hx))]
    simp
    omega

/-- Transporting a sound witness over a consumed prefix. -/
theorem sound_lift (pre rest : List Char) (line col : Nat) (e : LexError)
    (j' : Nat)
    (hW : SoundWitnessAt rest (advLC (line, col) pre).1
      (advLC (line, col) pre).2 e j')
    (hcs : commentState (pre ++ rest.take j') = false) :
    SoundWitnessAt (pre ++ rest) line col e (pre.length + j') := by
  obtain ⟨h1, h2, h3, h4, h5⟩ := hW
  refine ⟨?_, ?_, ?_, ?_, ?_⟩
  · rw [List.getElem?_append_right (Nat.le_add_right _ _),
      Nat.add_sub_cancel_left]
    exact h1
  · rw [Nat.add_assoc, List.getElem?_append_right (Nat.le_add_right _ _),
      Nat.add_sub_cancel_left]
    exact h2
  · rw [List.take_append]
    exact hcs
  · rw [List.take_append, advLC_append]
    exact h4
  · rw [List.take_append, advLC_append]
    exact h5

/-- Step case: one consumed character that is not `#`. -/
theorem sound_step_one (c : Char) (cs : List Char) (line col line' col' : Nat)
    (e : LexError) (hnh : c ≠ '#')
    (hadv : advLC (line, col) [c] = (line', col'))
    (hex : ∃ j', SoundWitnessAt cs line' col' e j') :
    ∃ j, SoundWitnessAt (c :: cs) line col e j := by
  obtain ⟨j', hW⟩ := hex
  refine ⟨1 + j', ?_⟩
  have h1 : commentState [c] = false := by
    show commentStep false c = false
    simp only [commentStep]
    split <;> simp_all
  have hcs : commentState ([c] ++ cs.take j') = false := by
    rw [commentState_append, h1]
    exact hW.2.2.1
  have := sound_lift [c] cs line col e j' (by rw [hadv]; exact hW) hcs
  simpa using this

/-- Step case: two consumed characters (a compound token), neither `#`. -/
theorem sound_step_two (c d : Char) (cs : List Char) (line col line' col' : Nat)
    (e : LexError) (hc : c ≠ '#') (hd : d ≠ '#')
    (hadv : advLC (line, col) [c, d] = (line', col'))
    (hex : ∃ j', SoundWitnessAt cs line' col' e j') :
    ∃ j, SoundWitnessAt (c :: d :: cs) line col e j := by
  obtain ⟨j', hW⟩ := hex
  refine ⟨2 + j', ?_⟩
  have h1 : commentState [c, d] = false := by
    show commentStep (commentStep false c) d = false
    have hc1 : commentStep false c = false := by
      simp only [commentStep]
      split <;> simp_all
    rw [hc1]
    simp only [commentStep]
    split <;> simp_all
  have hcs : commentState ([c, d] ++ cs.take j') = false := by
    rw [commentState_append, h1]
    exact hW.2.2.1
  have := sound_lift [c, d] cs line col e j' (by rw [hadv]; exact hW) hcs
  simpa using this

/-- Step case: a character followed by an absorbed run (identifier or
number); no consumed character is `#` or a newline. -/
theorem sound_step_run (c : Char) (cs : List Char) (pred : Char → Bool)
    (line col : Nat) (e : LexError) (hc : c ≠ '#') (hcn : c ≠ '\n')
    (hpred : ∀ x, pred x = true → x ≠ '#' ∧ x ≠ '\n')
    (hex : ∃ j', SoundWitnessAt (cs.dropWhile pred) line
      (col + 1 + (cs.takeWhile pred).length) e j') :
    ∃ j, SoundWitnessAt (c :: cs) line col e j := by
  obtain ⟨j', hW⟩ := hex
  have hpre : (c :: cs.takeWhile pred) ++ cs.dropWhile pred = c :: cs := by
    rw [List.cons_append, List.takeWhile_append_dropWhile]
  have hnn : ∀ x ∈ c :: cs.takeWhile pred, x ≠ '\n' := by
    intro x hx
    rcases List.mem_cons.mp hx with rfl | hx
    · exact hcn
    · exact (hpred x (List.mem_takeWhile_imp hx)).2
  have hnh : ∀ x ∈ c :: cs.takeWhile pred, x ≠ '#' := by
    intro x hx
    rcases List.mem_cons.mp hx with rfl | hx
    · exact hc
    · exact (hpred x (List.mem_takeWhile_imp hx)).1
  have hadv : advLC (line, col) (c :: cs.takeWhile pred) =
      (line, col + 1 + (cs.takeWhile pred).length) := by
    rw [advLC_no_newline _ hnn]
    simp
    omega
  have hcs :
      commentState ((c :: cs.takeWhile pred) ++
        (cs.dropWhile pred).take j') = false := by
    rw [commentState_append, commentState_no_hash _ hnh]
    exact hW.2.2.1
  have := sound_lift (c :: cs.takeWhile pred) (cs.dropWhile pred) line col e j'
    (by rw [hadv]; exact hW) hcs
  rw [hpre] at this
  exact ⟨_, this⟩

/-- The head of a `dropWhile` result falsifies the predicate. -/
theorem dropWhile_head_not (p : Char → Bool) (l : List Char) (c : Char)
    (rest : List Char) (h : l.dropWhile p = c :: rest) : p c = false := by
  induction l with
  | nil => simp [List.dropWhile] at h
  | cons a t ih =>
    rw [List.dropWhile_cons] at h
    split at h
    · exact ih h
    · injection h with h1 _
      subst h1
      simp_all

/-- Step case: a comment — `#` and the rest of the line are consumed; the
consumed prefix may switch the comment automaton on, but the recursion
restarts at a newline (or at the end of input), which switches it off
again. -/
theorem sound_step_comment (cs : List Char) (line col : Nat) (e : LexError)
    (hex : ∃ j', SoundWitnessAt (cs.dropWhile (· ≠ '\n')) line
      (col + 1 + (cs.takeWhile (· ≠ '\n')).length) e j') :
    ∃ j, SoundWitnessAt ('#' :: cs) line col e j := by
  obtain ⟨j', hW⟩ := hex
  have hpre : ('#' :: cs.takeWhile (· ≠ '\n')) ++ cs.dropWhile (· ≠ '\n') =
      '#' :: cs := by
    rw [List.cons_append, List.takeWhile_append_dropWhile]
  have hnn : ∀ x ∈ '#' :: cs.takeWhile (· ≠ '\n'), x ≠ '\n' := by
    intro x hx
    rcases List.mem_cons.mp hx with rfl | hx
    · decide
    · simpa using List.mem_takeWhile_imp hx
  have hadv : advLC (line, col) ('#' :: cs.takeWhile (· ≠ '\n')) =
      (line, col + 1 + (cs.takeWhile (· ≠ '\n')).length) := by
    rw [advLC_no_newline _ hnn]
    simp
    omega
  have hcs :
      commentState (('#' :: cs.takeWhile (· ≠ '\n')) ++
        (cs.dropWhile (· ≠ '\n')).take j') = false := by
    rw [commentState_append]
    have hpretrue : commentState ('#' :: cs.takeWhile (· ≠ '\n')) = true := by
      show List.foldl commentStep (commentStep false '#') _ = true
      exact foldl_commentStep_true_no_newline _ fun x hx => by
        simpa using List.mem_takeWhile_imp hx
    rw [hpretrue]
    rcases hdrop : cs.dropWhile (· ≠ '\n') with _ | ⟨r0, rest'⟩
    · rw [hdrop] at hW
      exact absurd hW.1 (by simp)
    · have hr0 : r0 = '\n' := by
        have := dropWhile_head_not _ _ _ _ hdrop
        simpa using this
      subst hr0
      rw [hdrop] at hW
      match j', hW with
      | 0, hW =>
        exfalso
        have h1 := hW.1
        simp only [List.getElem?_cons_zero, Option.some.injEq] at h1
        have h2 := hW.2.1
        rw [← h1] at h2
        simp [unrecognizedChar] at h2
      | k + 1, hW =>
        have h3 := hW.2.2.1
        simp only [commentState, List.take_succ_cons, List.foldl_cons] at h3 ⊢
        have e1 : commentStep true '\n' = false := rfl
        have e2 : commentStep false '\n' = false := rfl
        rw [e1]
        rw [e2] at h3
        exact h3
  have := sound_lift ('#' :: cs.takeWhile (· ≠ '\n')) (cs.dropWhile (· ≠ '\n'))
    line col e j' (by rw [hadv]; exact hW) hcs
  rw [hpre] at this
  exact ⟨_, this⟩

set_option maxHeartbeats 3200000 in
/-- Soundness of the scan: whenever `lexLoop` reports a lexical error, the
offending character is in the remaining input at the reported line/column,
outside every comment, and unrecognizable given its lookahead. -/
theorem lexLoop_sound :
    ∀ (fuel : Nat) (cs : List Char) (line col : Nat) (acc : List Token)
      (e : LexError),
    lexLoop fuel cs line col acc = some (.error e) →
    ∃ j, SoundWitnessAt cs line col e j := by
  intro fuel
  induction fuel with
  | zero => intro cs line col acc e h; simp [lexLoop] at h
  | succ fuel ih =>
    intro cs line col acc e h
    match cs with
    | [] => simp [lexLoop] at h
    | c :: cs =>
      rw [lexLoop] at h
      by_cases h1 : c = ' ' ∨ c = '\t' ∨ c = '\r'
      -- whitespace
      case pos =>
        rw [if_pos h1] at h
        rcases h1 with rfl | rfl | rfl <;>
          exact sound_step_one _ cs line col line (col + 1) e (by decide)
            (by rfl) (ih _ _ _ _ _ h)
      rw [if_neg h1] at h
      by_cases h2 : c = '\n'
      -- newline
      case pos =>
        rw [if_pos h2] at h
        subst h2
        exact sound_step_one _ cs line col (line + 1) 0 e (by decide)
          (by rfl) (ih _ _ _ _ _ h)
      rw [if_neg h2] at h
      by_cases h3 : c = '#'
      -- comment
      case pos =>
        rw [if_pos h3] at h
        subst h3
        exact sound_step_comment cs line col e (ih _ _ _ _ _ h)
      rw [if_neg h3] at h
      by_cases h4 : c = '+' ∧ cs.head? = some '='
      -- '+='
      case pos =>
        rw [if_pos h4] at h
        obtain ⟨rfl, hhd⟩ := h4
        rcases cs with _ | ⟨d, t⟩
        · simp at hhd
        · simp only [List.head?_cons, Option.some.injEq] at hhd
          subst hhd
          exact sound_step_two _ '=' t line col line (col + 2) e
            (by decide) (by decide) (by rfl) (ih _ _ _ _ _ h)
      rw [if_neg h4] at h
      by_cases h5 : c = '+'
      -- '+'
      case pos =>
        rw [if_pos h5] at h
        subst h5
        exact sound_step_one _ cs line col line (col + 1) e (by decide)
          (by rfl) (ih _ _ _ _ _ h)
      rw [if_neg h5] at h
      by_cases h6 : c = '-' ∧ cs.head? = some '='
      -- '-='
      case pos =>
        rw [if_pos h6] at h
        obtain ⟨rfl, hhd⟩ := h6
        rcases cs with _ | ⟨d, t⟩
        · simp at hhd
        · simp only [List.head?_cons, Option.some.injEq] at hhd
          subst hhd
          exact sound_step_two _ '=' t line col line (col + 2) e
            (by decide) (by decide) (by rfl) (ih _ _ _ _ _ h)
      rw [if_neg h6] at h
      by_cases h7 : c = '-'
      -- '-'
      case pos =>
        rw [if_pos h7] at h
        subst h7
        exact sound_step_one _ cs line col line (col + 1) e (by decide)
          (by rfl) (ih _ _ _ _ _ h)
      rw [if_neg h7] at h
      by_cases h8 : c = '*' ∧ cs.head? = some '='
      -- '*='
      case pos =>
        rw [if_pos h8] at h
        obtain ⟨rfl, hhd⟩ := h8
        rcases cs with _ | ⟨d, t⟩
        · simp at hhd
        · simp only [List.head?_cons, Option.some.injEq] at hhd
          subst hhd
          exact sound_step_two _ '=' t line col line (col + 2) e
            (by decide) (by decide) (by rfl) (ih _ _ _ _ _ h)
      rw [if_neg h8] at h
      by_cases h9 : c = '*'
      -- '*'
      case pos =>
        rw [if_pos h9] at h
        subst h9
        exact sound_step_one _ cs line col line (col + 1) e (by decide)
          (by rfl) (ih _ _ _ _ _ h)
      rw [if_neg h9] at h
      by_cases h10 : c = '/' ∧ cs.head? = some '='
      -- '/='
      case pos =>
        rw [if_pos h10] at h
        obtain ⟨rfl, hhd⟩ := h10
        rcases cs with _ | ⟨d, t⟩
        · simp at hhd
        · simp only [List.head?_cons, Option.some.injEq] at hhd
          subst hhd
          exact sound_step_two _ '=' t line col line (col + 2) e
            (by decide) (by decide) (by rfl) (ih _ _ _ _ _ h)
      rw [if_neg h10] at h
      by_cases h11 : c = '/'
      -- '/'
      case pos =>
        rw [if_pos h11] at h
        subst h11
        exact sound_step_one _ cs line col line (col + 1) e (by decide)
          (by rfl) (ih _ _ _ _ _ h)
      rw [if_neg h11] at h
      by_cases h12 : c = '^'
      -- '^'
      case pos =>
        rw [if_pos h12] at h
        subst h12
        exact sound_step_one _ cs line col line (col + 1) e (by decide)
          (by rfl) (ih _ _ _ _ _ h)
      rw [if_neg h12] at h
      by_cases h13 : c = '['
      -- '['
      case pos =>
        rw [if_pos h13] at h
        subst h13
        exact sound_step_one _ cs line col line (col + 1) e (by decide)
          (by rfl) (ih _ _ _ _ _ h)
      rw [if_neg h13] at h
      by_cases h14 : c = ']'
      -- ']'
      case pos =>
        rw [if_pos h14] at h
        subst h14
        exact sound_step_one _ cs line col line (col + 1) e (by decide)
          (by rfl) (ih _ _ _ _ _ h)
      rw [if_neg h14] at h
      by_cases h15 : c = '('
      -- '('
      case pos =>
        rw [if_pos h15] at h
        subst h15
        exact sound_step_one _ cs line col line (col + 1) e (by decide)
          (by rfl) (ih _ _ _ _ _ h)
      rw [if_neg h15] at h
      by_cases h16 : c = ')'
      -- ')'
      case pos =>
        rw [if_pos h16] at h
        subst h16
        exact sound_step_one _ cs line col line (col + 1) e (by decide)
          (by rfl) (ih _ _ _ _ _ h)
      rw [if_neg h16] at h
      by_cases h17 : c = '\x7b'
      -- open brace
      case pos =>
        rw [if_pos h17] at h
        subst h17
        exact sound_step_one _ cs line col line (col + 1) e (by decide)
          (by rfl) (ih _ _ _ _ _ h)
      rw [if_neg h17] at h
      by_cases h18 : c = '\x7d'
      -- close brace
      case pos =>
        rw [if_pos h18] at h
        subst h18
        exact sound_step_one _ cs line col line (col + 1) e (by decide)
          (by rfl) (ih _ _ _ _ _ h)
      rw [if_neg h18] at h
      by_cases h19 : c = ':' ∧ cs.head? = some '='
      -- ':='
      case pos =>
        rw [if_pos h19] at h
        obtain ⟨rfl, hhd⟩ := h19
        rcases cs with _ | ⟨d, t⟩
        · simp at hhd
        · simp only [List.head?_cons, Option.some.injEq] at hhd
          subst hhd
          exact sound_step_two _ '=' t line col line (col + 2) e
            (by decide) (by decide) (by rfl) (ih _ _ _ _ _ h)
      rw [if_neg h19] at h
      by_cases h20 : c = ';'
      -- ';'
      case pos =>
        rw [if_pos h20] at h
        subst h20
        exact sound_step_one _ cs line col line (col + 1) e (by decide)
          (by rfl) (ih _ _ _ _ _ h)
      rw [if_neg h20] at h
      by_cases h21 : c = ','
      -- ','
      case pos =>
        rw [if_pos h21] at h
        subst h21
        exact sound_step_one _ cs line col line (col + 1) e (by decide)
          (by rfl) (ih _ _ _ _ _ h)
      rw [if_neg h21] at h
      by_cases h22 : c = '.' ∧ cs.head? = some '.'
      -- '..'
      case pos =>
        rw [if_pos h22] at h
        obtain ⟨rfl, hhd⟩ := h22
        rcases cs with _ | ⟨d, t⟩
        · simp at hhd
        · simp only [List.head?_cons, Option.some.injEq] at hhd
          subst hhd
          exact sound_step_two _ '.' t line col line (col + 2) e
            (by decide) (by decide) (by rfl) (ih _ _ _ _ _ h)
      rw [if_neg h22] at h
      by_cases h23 : c.isAlpha
      -- identifier
      case pos =>
        rw [if_pos h23] at h
        refine sound_step_run c cs isIdentChar line col e ?_ ?_ ?_
          (ih _ _ _ _ _ h)
        · intro hq; rw [hq] at h23; exact absurd h23 (by decide)
        · intro hq; rw [hq] at h23; exact absurd h23 (by decide)
        · intro x hx
          constructor
          · intro hq; rw [hq] at hx; exact absurd hx (by decide)
          · intro hq; rw [hq] at hx; exact absurd hx (by decide)
      rw [if_neg h23] at h
      by_cases h24 : c.isDigit
      -- number
      case pos =>
        rw [if_pos h24] at h
        refine sound_step_run c cs isNumberChar line col e ?_ ?_ ?_
          (ih _ _ _ _ _ h)
        · intro hq; rw [hq] at h24; exact absurd h24 (by decide)
        · intro hq; rw [hq] at h24; exact absurd h24 (by decide)
        · intro x hx
          constructor
          · intro hq; rw [hq] at hx; exact absurd hx (by decide)
          · intro hq; rw [hq] at hx; exact absurd hx (by decide)
      rw [if_neg h24] at h
      -- unrecognized character: the error is raised here
      simp only [Option.some.injEq, Except.error.injEq] at h
      subst h
      refine ⟨0, by simp, ?_, rfl, rfl, rfl⟩
      simp only [List.getElem?_cons_succ, ← List.head?_eq_getElem?]
      simp only [unrecognizedChar, singleSymbolChars, Bool.and_eq_true,
        Bool.not_eq_true', Bool.or_eq_false_iff, decide_eq_false_iff_not,
        List.contains_cons, List.contains_nil, beq_eq_false_iff_ne, ne_eq]
      push_neg at h1
      rw [Bool.not_eq_true] at h23 h24
      refine ⟨⟨⟨⟨⟨⟨⟨⟨⟨h1.1, h1.2.1⟩, h1.2.2⟩, h2⟩, h3⟩, ?_⟩, ?_⟩, ?_⟩,
        h23⟩, h24⟩
      · exact ⟨h5, h7, h9, h11, h12, h13, h14, h15, h16, h17, h18, h20, h21,
          trivial⟩
      · simp only [Bool.and_eq_false_iff, decide_eq_false_iff_not]
        exact not_and_or.mp h19
      · simp only [Bool.and_eq_false_iff, decide_eq_false_iff_not]
        exact not_and_or.mp h22

/-- Transporting an outside-comment `'@'` occurrence over a consumed prefix
that contains neither `#` nor `'@'`. -/
theorem complete_lift (pre rest : List Char) (j : Nat)
    (hnh : ∀ x ∈ pre, x ≠ '#') (hna : ∀ x ∈ pre, x ≠ '@')
    (hj : (pre ++ rest)[j]? = some '@')
    (hcomm : commentState ((pre ++ rest).take j) = false) :
    pre.length ≤ j ∧ rest[j - pre.length]? = some '@' ∧
      commentState (rest.take (j - pre.length)) = false := by
  have hlen : pre.length ≤ j := by
    by_contra hlt
    push_neg at hlt
    rw [List.getElem?_append, if_pos hlt] at hj
    exact hna '@' (List.getElem?_mem hj) rfl
  refine ⟨hlen, ?_, ?_⟩
  · rw [List.getElem?_append_right hlen] at hj
    exact hj
  · have hj' : j = pre.length + (j - pre.length) := by omega
    rw [hj', List.take_append, commentState_append,
      commentState_no_hash _ hnh] at hcomm
    exact hcomm

set_option maxHeartbeats 3200000 in
/-- Completeness of the error at `'@'`: whenever the remaining input contains
an `'@'` outside every comment, the scan fails (at the `'@'` or at an earlier
offending character). -/
theorem lexLoop_complete :
    ∀ (fuel : Nat) (cs : List Char) (line col : Nat) (acc : List Token)
      (j : Nat),
    cs.length < fuel → cs[j]? = some '@' →
    commentState (cs.take j) = false →
    ∃ e, lexLoop fuel cs line col acc = some (.error e) := by
  intro fuel
  induction fuel with
  | zero => intro cs _ _ _ _ hfl _ _; omega
  | succ fuel ih =>
    intro cs line col acc j hfl hj hcomm
    match cs with
    | [] => simp at hj
    | c :: cs =>
      -- generic step over one consumed character that is neither `#` nor `@`
      have step1 : ∀ (c0 : Char) (line1 col1 : Nat) (acc1 : List Token),
          c0 ≠ '#' → c0 ≠ '@' →
          (c0 :: cs)[j]? = some '@' →
          commentState ((c0 :: cs).take j) = false →
          ∃ e, lexLoop fuel cs line1 col1 acc1 = some (.error e) := by
        intro c0 line1 col1 acc1 hh ha hjj hcc
        obtain ⟨-, hj', hcomm'⟩ := complete_lift [c0] cs j (by simp [hh])
          (by simp [ha]) (by simpa using hjj) (by simpa using hcc)
        exact ih cs line1 col1 acc1 _
          (by simp only [List.length_cons] at hfl; omega) hj' hcomm'
      -- generic step over two consumed characters, none `#` or `@`
      have step2 : ∀ (c0 d0 : Char) (t : List Char) (line1 col1 : Nat)
          (acc1 : List Token),
          cs = d0 :: t → c0 ≠ '#' → c0 ≠ '@' → d0 ≠ '#' → d0 ≠ '@' →
          (c0 :: cs)[j]? = some '@' →
          commentState ((c0 :: cs).take j) = false →
          ∃ e, lexLoop fuel t line1 col1 acc1 = some (.error e) := by
        intro c0 d0 t line1 col1 acc1 hcs hh ha hh2 ha2 hjj hcc
        subst hcs
        obtain ⟨-, hj', hcomm'⟩ := complete_lift [c0, d0] t j
          (by simp [hh, hh2]) (by simp [ha, ha2])
          (by simpa using hjj) (by simpa using hcc)
        exact ih t line1 col1 acc1 _
          (by simp only [List.length_cons] at hfl; omega) hj' hcomm'
      rw [lexLoop]
      by_cases h1 : c = ' ' ∨ c = '\t' ∨ c = '\r'
      case pos =>
        rw [if_pos h1]
        rcases h1 with rfl | rfl | rfl <;>
          exact step1 _ line (col + 1) _ (by decide) (by decide) hj hcomm
      rw [if_neg h1]
      by_cases h2 : c = '\n'
      case pos =>
        rw [if_pos h2]
        subst h2
        exact step1 _ (line + 1) 0 _ (by decide) (by decide) hj hcomm
      rw [if_neg h2]
      by_cases h3 : c = '#'
      case pos =>
        rw [if_pos h3]
        subst h3
        -- the '@' cannot be the '#' itself, nor inside the skipped comment
        -- body; it lies at or after the newline that ends the comment.
        rcases j with _ | j
        · simp at hj
        simp only [List.getElem?_cons_succ] at hj
        simp only [List.take_succ_cons] at hcomm
        have hsplit : cs.takeWhile (· ≠ '\n') ++ cs.dropWhile (· ≠ '\n') =
            cs := List.takeWhile_append_dropWhile ..
        have htkw : ∀ x ∈ cs.takeWhile (· ≠ '\n'), x ≠ '\n' := fun x hx => by
          simpa using List.mem_takeWhile_imp hx
        by_cases hin : j < (cs.takeWhile (· ≠ '\n')).length
        · exfalso
          have habove : commentState ('#' :: cs.take j) = true := by
            show List.foldl commentStep (commentStep false '#') _ = true
            refine foldl_commentStep_true_no_newline _ fun x hx => ?_
            have hx' : x ∈ cs.takeWhile (· ≠ '\n') := by
              have heq : cs.take j = (cs.takeWhile (· ≠ '\n')).take j := by
                conv_lhs => rw [← hsplit]
                rw [List.take_append_of_le_length (by omega)]
              rw [heq] at hx
              exact List.mem_of_mem_take hx
            exact htkw x hx'
          rw [habove] at hcomm
          cases hcomm
        · push_neg at hin
          set tkw := cs.takeWhile (· ≠ '\n') with htkwdef
          set dropped := cs.dropWhile (· ≠ '\n') with hdroppeddef
          have hj2 : dropped[j - tkw.length]? = some '@' := by
            rw [← hsplit, List.getElem?_append_right hin] at hj
            exact hj
          have hcomm2 : List.foldl commentStep true
              (dropped.take (j - tkw.length)) = false := by
            have hje : j = tkw.length + (j - tkw.length) := by omega
            rw [← hsplit] at hcomm
            rw [hje, List.take_append] at hcomm
            have hfold : commentState ('#' :: (tkw ++
                dropped.take (j - tkw.length))) =
                List.foldl commentStep
                  (List.foldl commentStep (commentStep false '#') tkw)
                  (dropped.take (j - tkw.length)) := by
              simp [commentState, List.foldl_append]
            rw [hfold] at hcomm
            have e0 : commentStep false '#' = true := rfl
            rw [e0, foldl_commentStep_true_no_newline _ htkw] at hcomm
            exact hcomm
          rcases hdrop : dropped with _ | ⟨r0, rest'⟩
          · rw [hdrop] at hj2
            simp at hj2
          have hr0 : r0 = '\n' := by
            have := dropWhile_head_not _ _ _ _ (hdroppeddef.symm.trans hdrop)
            simpa using this
          subst hr0
          rcases hk : j - tkw.length with _ | k
          · rw [hk, hdrop] at hj2
            simp at hj2
          have hcomm3 : commentState (dropped.take (j - tkw.length)) =
              false := by
            rw [hdrop, hk] at hcomm2 ⊢
            simp only [List.take_succ_cons, commentState, List.foldl_cons]
              at hcomm2 ⊢
            have e1 : commentStep true '\n' = false := rfl
            have e2 : commentStep false '\n' = false := rfl
            rw [e1] at hcomm2
            rw [e2]
            exact hcomm2
          have hflen : dropped.length < fuel := by
            have hlen := congrArg List.length hsplit
            simp only [List.length_append, List.length_cons] at hlen hfl
            omega
          rw [← hdrop]
          exact ih dropped line (col + 1 + tkw.length) acc (j - tkw.length)
            hflen hj2 hcomm3
      rw [if_neg h3]

      by_cases h4 : c = '+' ∧ cs.head? = some '='
      -- '+='
      case pos =>
        rw [if_pos h4]
        obtain ⟨rfl, hhd⟩ := h4
        rcases cs with _ | ⟨d, t⟩
        · simp at hhd
        · simp only [List.head?_cons, Option.some.injEq] at hhd
          subst hhd
          exact step2 _ _ t line (col + 2) _ rfl (by decide) (by decide)
            (by decide) (by decide) hj hcomm
      rw [if_neg h4]
      by_cases h5 : c = '+'
      -- '+'
      case pos =>
        rw [if_pos h5]
        subst h5
        exact step1 _ line (col + 1) _ (by decide) (by decide) hj hcomm
      rw [if_neg h5]
      by_cases h6 : c = '-' ∧ cs.head? = some '='
      -- '-='
      case pos =>
        rw [if_pos h6]
        obtain ⟨rfl, hhd⟩ := h6
        rcases cs with _ | ⟨d, t⟩
        · simp at hhd
        · simp only [List.head?_cons, Option.some.injEq] at hhd
          subst hhd
          exact step2 _ _ t line (col + 2) _ rfl (by decide) (by decide)
            (by decide) (by decide) hj hcomm
      rw [if_neg h6]
      by_cases h7 : c = '-'
      -- '-'
      case pos =>
        rw [if_pos h7]
        subst h7
        exact step1 _ line (col + 1) _ (by decide) (by decide) hj hcomm
      rw [if_neg h7]
      by_cases h8 : c = '*' ∧ cs.head? = some '='
      -- '*='
      case pos =>
        rw [if_pos h8]
        obtain ⟨rfl, hhd⟩ := h8
        rcases cs with _ | ⟨d, t⟩
        · simp at hhd
        · simp only [List.head?_cons, Option.some.injEq] at hhd
          subst hhd
          exact step2 _ _ t line (col + 2) _ rfl (by decide) (by decide)
            (by decide) (by decide) hj hcomm
      rw [if_neg h8]
      by_cases h9 : c = '*'
      -- '*'
      case pos =>
        rw [if_pos h9]
        subst h9
        exact step1 _ line (col + 1) _ (by decide) (by decide) hj hcomm
      rw [if_neg h9]
      by_cases h10 : c = '/' ∧ cs.head? = some '='
      -- '/='
      case pos =>
        rw [if_pos h10]
        obtain ⟨rfl, hhd⟩ := h10
        rcases cs with _ | ⟨d, t⟩
        · simp at hhd
        · simp only [List.head?_cons, Option.some.injEq] at hhd
          subst hhd
          exact step2 _ _ t line (col + 2) _ rfl (by decide) (by decide)
            (by decide) (by decide) hj hcomm
      rw [if_neg h10]
      by_cases h11 : c = '/'
      -- '/'
      case pos =>
        rw [if_pos h11]
        subst h11
        exact step1 _ line (col + 1) _ (by decide) (by decide) hj hcomm
      rw [if_neg h11]
      by_cases h12 : c = '^'
      -- '^'
      case pos =>
        rw [if_pos h12]
        subst h12
        exact step1 _ line (col + 1) _ (by decide) (by decide) hj hcomm
      rw [if_neg h12]
      by_cases h13 : c = '['
      -- '['
      case pos =>
        rw [if_pos h13]
        subst h13
        exact step1 _ line (col + 1) _ (by decide) (by decide) hj hcomm
      rw [if_neg h13]
      by_cases h14 : c = ']'
      -- ']'
      case pos =>
        rw [if_pos h14]
        subst h14
        exact step1 _ line (col + 1) _ (by decide) (by decide) hj hcomm
      rw [if_neg h14]
      by_cases h15 : c = '('
      -- '('
      case pos =>
        rw [if_pos h15]
        subst h15
        exact step1 _ line (col + 1) _ (by decide) (by decide) hj hcomm
      rw [if_neg h15]
      by_cases h16 : c = ')'
      -- ')'
      case pos =>
        rw [if_pos h16]
        subst h16
        exact step1 _ line (col + 1) _ (by decide) (by decide) hj hcomm
      rw [if_neg h16]
      by_cases h17 : c = '\x7b'
      -- open brace
      case pos =>
        rw [if_pos h17]
        subst h17
        exact step1 _ line (col + 1) _ (by decide) (by decide) hj hcomm
      rw [if_neg h17]
      by_cases h18 : c = '\x7d'
      -- close brace
      case pos =>
        rw [if_pos h18]
        subst h18
        exact step1 _ line (col + 1) _ (by decide) (by decide) hj hcomm
      rw [if_neg h18]
      by_cases h19 : c = ':' ∧ cs.head? = some '='
      -- ':='
      case pos =>
        rw [if_pos h19]
        obtain ⟨rfl, hhd⟩ := h19
        rcases cs with _ | ⟨d, t⟩
        · simp at hhd
        · simp only [List.head?_cons, Option.some.injEq] at hhd
          subst hhd
          exact step2 _ _ t line (col + 2) _ rfl (by decide) (by decide)
            (by decide) (by decide) hj hcomm
      rw [if_neg h19]
      by_cases h20 : c = ';'
      -- ';'
      case pos =>
        rw [if_pos h20]
        subst h20
        exact step1 _ line (col + 1) _ (by decide) (by decide) hj hcomm
      rw [if_neg h20]
      by_cases h21 : c = ','
      -- ','
      case pos =>
        rw [if_pos h21]
        subst h21
        exact step1 _ line (col + 1) _ (by decide) (by decide) hj hcomm
      rw [if_neg h21]
      by_cases h22 : c = '.' ∧ cs.head? = some '.'
      -- '..'
      case pos =>
        rw [if_pos h22]
        obtain ⟨rfl, hhd⟩ := h22
        rcases cs with _ | ⟨d, t⟩
        · simp at hhd
        · simp only [List.head?_cons, Option.some.injEq] at hhd
          subst hhd
          exact step2 _ _ t line (col + 2) _ rfl (by decide) (by decide)
            (by decide) (by decide) hj hcomm
      rw [if_neg h22]
      by_cases h23 : c.isAlpha
      -- identifier
      case pos =>
        rw [if_pos h23]
        have hch : c ≠ '#' := fun hq => by rw [hq] at h23; exact absurd h23 (by decide)
        have hca : c ≠ '@' := fun hq => by rw [hq] at h23; exact absurd h23 (by decide)
        have hpred : ∀ x ∈ c :: cs.takeWhile isIdentChar, x ≠ '#' ∧ x ≠ '@' := by
          intro x hx
          rcases List.mem_cons.mp hx with rfl | hx
          · exact ⟨hch, hca⟩
          · have hpx := List.mem_takeWhile_imp hx
            constructor
            · intro hq; rw [hq] at hpx; exact absurd hpx (by decide)
            · intro hq; rw [hq] at hpx; exact absurd hpx (by decide)
        have hpre : (c :: cs.takeWhile isIdentChar) ++ cs.dropWhile isIdentChar
            = c :: cs := by
          rw [List.cons_append, List.takeWhile_append_dropWhile]
        obtain ⟨-, hj', hcomm'⟩ := complete_lift (c :: cs.takeWhile isIdentChar)
          (cs.dropWhile isIdentChar) j (fun x hx => (hpred x hx).1)
          (fun x hx => (hpred x hx).2) (by rw [hpre]; exact hj)
          (by rw [hpre]; exact hcomm)
        refine ih (cs.dropWhile isIdentChar) line
          (col + 1 + (cs.takeWhile isIdentChar).length) _ _ ?_ hj' hcomm'
        have hd := length_dropWhile_le isIdentChar cs
        simp only [List.length_cons] at hfl
        omega
      rw [if_neg h23]
      by_cases h24 : c.isDigit
      -- number
      case pos =>
        rw [if_pos h24]
        have hch : c ≠ '#' := fun hq => by rw [hq] at h24; exact absurd h24 (by decide)
        have hca : c ≠ '@' := fun hq => by rw [hq] at h24; exact absurd h24 (by decide)
        have hpred : ∀ x ∈ c :: cs.takeWhile isNumberChar, x ≠ '#' ∧ x ≠ '@' := by
          intro x hx
          rcases List.mem_cons.mp hx with rfl | hx
          · exact ⟨hch, hca⟩
          · have hpx := List.mem_takeWhile_imp hx
            constructor
            · intro hq; rw [hq] at hpx; exact absurd hpx (by decide)
            · intro hq; rw [hq] at hpx; exact absurd hpx (by decide)
        have hpre : (c :: cs.takeWhile isNumberChar) ++ cs.dropWhile isNumberChar
            = c :: cs := by
          rw [List.cons_append, List.takeWhile_append_dropWhile]
        obtain ⟨-, hj', hcomm'⟩ := complete_lift (c :: cs.takeWhile isNumberChar)
          (cs.dropWhile isNumberChar) j (fun x hx => (hpred x hx).1)
          (fun x hx => (hpred x hx).2) (by rw [hpre]; exact hj)
          (by rw [hpre]; exact hcomm)
        refine ih (cs.dropWhile isNumberChar) line
          (col + 1 + (cs.takeWhile isNumberChar).length) _ _ ?_ hj' hcomm'
        have hd := length_dropWhile_le isNumberChar cs
        simp only [List.length_cons] at hfl
        omega
      rw [if_neg h24]
      -- the scan fails right here
      exact ⟨_, rfl⟩

/--
C10 counterexample: the string `"#@"` contains an `'@'` (inside a comment),
yet `Lexer.tokenize` succeeds with no tokens — so lexing a string containing
`'@'` does not always fail.
-/
theorem c10_at_in_comment_counterexample :
    tokenize "#@" = .ok [] ∧ '@' ∈ "#@".data :=
  ⟨by rfl, by decide⟩

/--
C10 amended: `Lexer.tokenize` raises a lexical error only at a character of
the source that is unrecognizable given its one-character lookahead (not
whitespace, alphabetic, numeric, `'#'`, a single-character symbol, or the
start of `:=` or `..`) and that lies outside every comment, and the error
reports exactly the line and column of that character (standard line/column
walking from 1:1); conversely, lexing any string containing an `'@'` outside
a comment fails.  (For the `'@'` to carry the reported position it must be
the character the scan fails at; an `'@'` inside a comment triggers no error,
see the counterexample.)
-/
theorem c10_lex_error_characterization :
    (∀ (s : String) (e : LexError), tokenize s = .error e →
      ∃ j, SoundWitnessAt s.data 1 0 e j) ∧
    (∀ (s : String) (j : Nat), s.data[j]? = some '@' →
      commentState (s.data.take j) = false →
      ∃ e, tokenize s = .error e) := by
  constructor
  · intro s e h
    rw [tokenize] at h
    rcases hlex : lexLoop (s.data.length + 1) s.data 1 0 [] with _ | r
    · rw [hlex] at h
      simp at h
    · rw [hlex] at h
      simp only [Option.getD_some] at h
      subst h
      exact lexLoop_sound _ _ _ _ _ _ hlex
  · intro s j hj hcomm
    obtain ⟨e, he⟩ :=
      lexLoop_complete (s.data.length + 1) s.data 1 0 [] j (by omega) hj hcomm
    refine ⟨e, ?_⟩
    rw [tokenize, he]
    rfl

/-- C10 amended witness: on `"x@"` the lexer fails with the error
`⟨'@', 1, 2⟩`; the characterization applied there produces the occurrence of
the `'@'` and, applied to the occurrence, reproduces a failure. -/
theorem c10_lex_error_characterization_witness :
    (∃ j, SoundWitnessAt "x@".data 1 0 ⟨'@', 1, 2⟩ j) ∧
    (∃ e, tokenize "x@" = .error e) :=
  ⟨c10_lex_error_characterization.1 "x@" ⟨'@', 1, 2⟩ (by rfl),
   c10_lex_error_characterization.2 "x@" 1 (by rfl) (by rfl)⟩
